import Mathlib

/-!
Verification development for the RAG utility-document processor.

The definitions below are a shallow embedding of the repository's core:
`src/rag/knowledge_base.py` (document loading, knowledge-base creation,
incremental update, querying), `config/settings.py` (constants) and
`app.py` (`generate_answer`).  External effects (the OpenAI embedding
call, the ChromaDB persistent collection, the chat-completion call) are
made explicit: the embedding provider is a function parameter returning
`Except`, the single persistent Chroma collection (only the fixed name
`COLLECTION_NAME` is ever used by the code) is an explicit
`Option (List Entry)` state threaded through each operation, and a raised
Python exception is modelled by a result constructor carrying the state
at the moment of the raise (effects already performed stay visible).
-/

/-! ### config/settings.py -/

def COLLECTION_NAME : String := "utility_docs"

def EMBEDDING_MODEL : String := "text-embedding-3-small"

def LLM_MODEL : String := "gpt-4o"

def EMBEDDING_BATCH_SIZE : Nat := 100

/-! ### Python JSON values

A decoded Python JSON value (`json.load` result).  A Python `dict`
preserves insertion order, so an object is a list of key/value pairs in
insertion order. -/

inductive PyJson where
  | null
  | bool (b : Bool)
  | int (n : Int)
  | str (s : String)
  | arr (items : List PyJson)
  | obj (fields : List (String × PyJson))

/-- A Python dict freshly decoded from / destined for JSON: the shape of
one record in `update_knowledge_base`'s `final_json_list`. -/
abbrev Record := List (String × PyJson)

/-- Python `d.get(k)`: first binding of `k`, else `None`. -/
def pyGet (r : Record) (k : String) : Option PyJson :=
  match r with
  | [] => none
  | (k2, v) :: rest => if k2 = k then some v else pyGet rest k

/-- Four lowercase hex digits, as in Python's `\uXXXX` escapes. -/
def hex4 (n : Nat) : String :=
  String.mk [Nat.digitChar (n / 4096 % 16), Nat.digitChar (n / 256 % 16),
    Nat.digitChar (n / 16 % 16), Nat.digitChar (n % 16)]

/-- `\uXXXX` escape of one code point, using a surrogate pair above the
basic multilingual plane (Python `json.dumps` with `ensure_ascii=True`). -/
def uEscape (cp : Nat) : String :=
  if cp < 0x10000 then "\\u" ++ hex4 cp
  else
    "\\u" ++ hex4 (0xd800 + (cp - 0x10000) / 0x400) ++
    "\\u" ++ hex4 (0xdc00 + (cp - 0x10000) % 0x400)

/-- Escape of one character inside a JSON string literal
(`json.dumps` default `ensure_ascii=True`). -/
def jsonEscapeChar (c : Char) : String :=
  if c = '\\' then "\\\\"
  else if c = '"' then "\\\""
  else if c = '\n' then "\\n"
  else if c = '\r' then "\\r"
  else if c = '\t' then "\\t"
  else if c.toNat = 8 then "\\b"
  else if c.toNat = 12 then "\\f"
  else if c.toNat < 0x20 || 0x7e < c.toNat then uEscape c.toNat
  else String.singleton c

/-- A JSON string literal with its quotes. -/
def jsonQuote (s : String) : String :=
  "\"" ++ String.join (s.data.map jsonEscapeChar) ++ "\""

/-- `ind` spaces. -/
def spaces (ind : Nat) : String :=
  String.mk (List.replicate ind ' ')

mutual

/-- Model of Python `json.dumps(value, indent=2)` at current indentation
`ind`: item separator `,\n`, key separator `: `, each element on its own
line indented two spaces further, dict fields kept in insertion order
(`sort_keys` is not passed, so no key sorting happens). -/
def pyDumps (ind : Nat) : PyJson → String
  | .null => "null"
  | .bool true => "true"
  | .bool false => "false"
  | .int n => toString n
  | .str s => jsonQuote s
  | .arr [] => "[]"
  | .arr (x :: xs) =>
      "[\n" ++ String.intercalate ",\n" (pyDumpsItems (ind + 2) (x :: xs)) ++
      "\n" ++ spaces ind ++ "]"
  | .obj [] => "\x7b\x7d"
  | .obj (f :: fs) =>
      "\x7b\n" ++ String.intercalate ",\n" (pyDumpsFields (ind + 2) (f :: fs)) ++
      "\n" ++ spaces ind ++ "\x7d"

/-- The rendered items of a JSON array, each prefixed by its indentation. -/
def pyDumpsItems (ind : Nat) : List PyJson → List String
  | [] => []
  | x :: xs => (spaces ind ++ pyDumps ind x) :: pyDumpsItems ind xs

/-- The rendered fields of a JSON object, each prefixed by its indentation. -/
def pyDumpsFields (ind : Nat) : List (String × PyJson) → List String
  | [] => []
  | (k, v) :: fs =>
      (spaces ind ++ jsonQuote k ++ ": " ++ pyDumps ind v) :: pyDumpsFields ind fs

end

/-- Escape of one character inside a Python single-quoted `repr` string
(backslash, quote and the common control characters; other characters are
kept verbatim). -/
def pyReprEscChar (c : Char) : String :=
  if c = '\\' then "\\\\"
  else if c = '\x27' then "\\\x27"
  else if c = '\n' then "\\n"
  else if c = '\r' then "\\r"
  else if c = '\t' then "\\t"
  else String.singleton c

/-- Python `repr` of a string: single-quoted with escapes. -/
def pyReprStr (s : String) : String :=
  "\x27" ++ String.join (s.data.map pyReprEscChar) ++ "\x27"

mutual

/-- Python `repr` of a decoded JSON value. -/
def pyReprVal : PyJson → String
  | .null => "None"
  | .bool true => "True"
  | .bool false => "False"
  | .int n => toString n
  | .str s => pyReprStr s
  | .arr [] => "[]"
  | .arr (x :: xs) =>
      "[" ++ String.intercalate ", " (pyReprItems (x :: xs)) ++ "]"
  | .obj [] => "\x7b\x7d"
  | .obj (f :: fs) =>
      "\x7b" ++ String.intercalate ", " (pyReprFields (f :: fs)) ++ "\x7d"

/-- Rendered `repr` items of a Python list. -/
def pyReprItems : List PyJson → List String
  | [] => []
  | x :: xs => pyReprVal x :: pyReprItems xs

/-- Rendered `repr` fields of a Python dict. -/
def pyReprFields : List (String × PyJson) → List String
  | [] => []
  | (k, v) :: fs => (pyReprStr k ++ ": " ++ pyReprVal v) :: pyReprFields fs

end

/-- Python `str()` of a decoded JSON value, as an f-string renders it:
`None`, `True`/`False`, decimal integers, strings verbatim, containers by
`repr`. -/
def pyStrVal : PyJson → String
  | .null => "None"
  | .bool true => "True"
  | .bool false => "False"
  | .int n => toString n
  | .str s => s
  | .arr xs => pyReprVal (.arr xs)
  | .obj fs => pyReprVal (.obj fs)

/-- What the f-string `f"...\x7bfinal_json.get(..)\x7d..."` renders for the
`Optional` result of a dict lookup: `None` when the key is absent. -/
def fstrOpt : Option PyJson → String
  | none => "None"
  | some v => pyStrVal v

/-! ### src/rag/knowledge_base.py : loading documents -/

/-- A LangChain `Document` as this code builds it: the serialized record
as `page_content` and the single metadata field `"source"`. -/
structure Document where
  page_content : String
  source : String
deriving DecidableEq

/-- One `*.json` file of the record directory as `json.load` sees it:
its file name and either the decoded value or `none` when decoding
raises `json.JSONDecodeError`. -/
structure JsonFile where
  name : String
  data : Option PyJson

/-- `load_documents_from_json_dir(source_dir)`: an empty list when the
directory does not exist (`none`); otherwise one document per file that
decodes, `page_content=json.dumps(data, indent=2)` and
`metadata=\x7b"source": json_file.name\x7d`, files that fail to decode
skipped with a warning. -/
def load_documents_from_json_dir : Option (List JsonFile) → List Document
  | none => []
  | some files => files.filterMap fun f =>
      f.data.map fun d => ⟨pyDumps 0 d, f.name⟩

/-! ### The knowledge-base state

The code only ever touches the one collection named `COLLECTION_NAME` in
the one persistent client at `VECTOR_DB_DIR`, so the persistent state is
modelled as that collection's contents: `none` while the collection has
never been created, `some entries` afterwards. -/

/-- One stored row of the Chroma collection: `collection.add` receives
positionally matched `ids`, `embeddings`, `documents` and
`metadatas=[... \x7b"source": ...\x7d ...]`; the embedding type `α` is
opaque to the code. -/
structure Entry (α : Type) where
  id : String
  embedding : α
  document : String
  source : String
deriving DecidableEq

/-- The persistent collection: `none` = never created. -/
abbrev ChromaStore (α : Type) := Option (List (Entry α))

/-- The exceptions the embedded code can raise.  The spec's taxonomy names
them `ConfigError` (the `ValueError` for a missing `OPENAI_API_KEY`),
`ProviderError` (the embedding call raised) and `IndexError`
(`client.get_collection` on a collection that does not exist). -/
inductive KBError where
  | configError
  | providerError
  | indexError
deriving DecidableEq

/-- Outcome of one ingest call: a normal return, or a raised exception.
Either way the persistent collection state at that moment is kept —
a raise does not roll anything back. -/
inductive RunResult (α : Type) where
  | ok (store : ChromaStore α)
  | err (e : KBError) (store : ChromaStore α)
deriving DecidableEq

/-- Python truthiness of `os.getenv("OPENAI_API_KEY")`: falsy when the
variable is unset (`None`) or set to the empty string. -/
def keyMissing : Option String → Bool
  | none => true
  | some s => s.isEmpty

/-- The id `f"doc_\x7bn\x7d"` assigned to the entry at position `n`. -/
def docId (n : Nat) : String := "doc_" ++ Nat.repr n

/-- `collection.add(ids=..., embeddings=..., documents=..., metadatas=...)`:
rows are built by position from the four parallel lists. -/
def mkEntries {α : Type} : List String → List α → List Document → List (Entry α)
  | i :: is, v :: vs, d :: ds => ⟨i, v, d.page_content, d.source⟩ :: mkEntries is vs ds
  | _, _, _ => []

/-- Structural worker for `chunkList`: peels one chunk of `B` elements per
step; `fuel` bounds the number of steps and is always run with at least
the list's length. -/
def chunkListFuel {β : Type} (B : Nat) : Nat → List β → List (List β)
  | _, [] => []
  | 0, _ :: _ => []
  | fuel + 1, x :: xs => (x :: xs.take (B - 1)) :: chunkListFuel B fuel (xs.drop (B - 1))

/-- Python slicing `documents[i:i+B]` over `range(0, len(documents), B)`:
consecutive chunks of `B` documents, the last possibly shorter.  (The code
only instantiates `B` with `EMBEDDING_BATCH_SIZE = 100`.) -/
def chunkList {β : Type} (B : Nat) (l : List β) : List (List β) :=
  chunkListFuel B l.length l

/-- The batch loop of `create_knowledge_base`: for each batch, embed its
page contents (a raised embedding error aborts here, keeping what was
already appended), read `current_count = collection.count()`, assign ids
`doc_\x7bcurrent_count + j\x7d` and append the batch. -/
def ingestBatches {α : Type} (embed : List String → Except Unit (List α)) :
    List (List Document) → List (Entry α) → RunResult α
  | [], coll => .ok (some coll)
  | b :: bs, coll =>
    match embed (b.map (·.page_content)) with
    | .error _ => .err .providerError (some coll)
    | .ok batch_embeddings =>
      let current_count := coll.length
      let ids := (List.range b.length).map fun j => docId (current_count + j)
      ingestBatches embed bs (coll ++ mkEntries ids batch_embeddings b)

/-- `create_knowledge_base(documents=None)`: check the credential, fall
back to loading `FINAL_JSON_DIR` when no documents are passed, return
silently on an empty document list, otherwise `get_or_create_collection`
and run the batch loop. -/
def create_knowledge_base {α : Type} (apiKey : Option String)
    (embed : List String → Except Unit (List α))
    (documents : Option (List Document))
    (finalJsonDir : Option (List JsonFile))
    (store : ChromaStore α) : RunResult α :=
  if keyMissing apiKey then .err .configError store
  else
    let docs := match documents with
      | none => load_documents_from_json_dir finalJsonDir
      | some ds => ds
    if docs.isEmpty then .ok store
    else
      ingestBatches embed (chunkList EMBEDDING_BATCH_SIZE docs) (store.getD [])

/-- The `Document` built from one record in `update_knowledge_base`:
`page_content=json.dumps(final_json, indent=2)` and
`metadata=\x7b"source": f"..."\x7d` from `final_json.get("documentId")`. -/
def recordToDocument (final_json : Record) : Document :=
  ⟨pyDumps 0 (.obj final_json), fstrOpt (pyGet final_json "documentId") ++ ".json"⟩

/-- `update_knowledge_base(final_json_list)`: return silently on an empty
list, then check the credential, `get_or_create_collection`, build the
documents, embed them all in one call, read `current_count`, assign ids
and append. -/
def update_knowledge_base {α : Type} (apiKey : Option String)
    (embed : List String → Except Unit (List α))
    (final_json_list : List Record)
    (store : ChromaStore α) : RunResult α :=
  if final_json_list.isEmpty then .ok store
  else if keyMissing apiKey then .err .configError store
  else
    let coll := store.getD []
    let docs_to_ingest := final_json_list.map recordToDocument
    if docs_to_ingest.isEmpty then .ok (some coll)
    else
      let page_contents := docs_to_ingest.map (·.page_content)
      match embed page_contents with
      | .error _ => .err .providerError (some coll)
      | .ok embeddings =>
        let current_count := coll.length
        let ids := (List.range docs_to_ingest.length).map fun i =>
          docId (current_count + i)
        .ok (some (coll ++ mkEntries ids embeddings docs_to_ingest))

/-- `query_knowledge_base(query_text, n_results=15)`: check the
credential, `get_collection` (which raises when the collection does not
exist), then run the nearest-neighbour query.  The embedding-space search
itself happens inside ChromaDB; it is the oracle parameter `search`,
returning `results["documents"][0]`. -/
def query_knowledge_base {α : Type} (apiKey : Option String)
    (search : List (Entry α) → String → Nat → List String)
    (query_text : String) (store : ChromaStore α) (n_results : Nat := 15) :
    Except KBError (List String) :=
  if keyMissing apiKey then .error .configError
  else
    match store with
    | none => .error .indexError
    | some entries => .ok (search entries query_text n_results)

/-! ### app.py : generate_answer -/

/-- One `client.chat.completions.create` request as `generate_answer`
builds it (model, system message, user message, sampling temperature). -/
structure ChatRequest where
  model : String
  system : String
  user : String
  temperature : ℚ
deriving DecidableEq

/-- `generate_answer(query_text, retrieved_docs)`: the fixed message on an
empty context list, otherwise one chat-completion call at temperature 0.
The external model is the oracle parameter `callModel`; the second
component of the result is the list of requests actually issued. -/
def generate_answer (callModel : ChatRequest → String)
    (query_text : String) (retrieved_docs : List String) :
    String × List ChatRequest :=
  if retrieved_docs.isEmpty then
    ("I couldn\x27t find any relevant documents to answer that.", [])
  else
    let context_str := String.intercalate "\n\n---\n\n" retrieved_docs
    let system_prompt :=
      "You are an expert Q&A system. Answer the user\x27s question based ONLY on " ++
      "the provided context documents. If the answer isn\x27t in the context, say so."
    let user_prompt :=
      "CONTEXT DOCUMENTS:\n" ++ context_str ++ "\n\nUSER\x27S QUESTION:\n" ++
      query_text ++ "\n\nANSWER:"
    let req : ChatRequest := ⟨LLM_MODEL, system_prompt, user_prompt, 0⟩
    (callModel req, [req])

/-! ### Sequential ingest calls (the single-writer scenario) -/

/-- One ingest call against the shared collection: `create_knowledge_base`
with an explicit document list, or `update_knowledge_base` with a record
list. -/
inductive IngestCall where
  | createCall (docs : List Document)
  | updateCall (recs : List Record)

/-- The number of records an ingest call carries. -/
def IngestCall.size : IngestCall → Nat
  | .createCall docs => docs.length
  | .updateCall recs => recs.length

/-- Run one ingest call. -/
def runCall {α : Type} (apiKey : Option String)
    (embed : List String → Except Unit (List α)) :
    IngestCall → ChromaStore α → RunResult α
  | .createCall docs, s => create_knowledge_base apiKey embed (some docs) none s
  | .updateCall recs, s => update_knowledge_base apiKey embed recs s

/-- Run ingest calls sequentially (single writer); a raised exception
stops the sequence. -/
def runCalls {α : Type} (apiKey : Option String)
    (embed : List String → Except Unit (List α)) :
    List IngestCall → ChromaStore α → RunResult α
  | [], s => .ok s
  | c :: cs, s =>
    match runCall apiKey embed c s with
    | .ok s2 => runCalls apiKey embed cs s2
    | .err e s2 => .err e s2

/-! ### Decimal rendering: `Nat.repr` is injective

`docId` distinctness reduces to injectivity of the decimal rendering used
by `Nat.repr`.  `decChars` is a fuel-free reference rendering. -/

/-- Most-significant-first decimal digit characters of `n`. -/
def decChars (n : Nat) : List Char :=
  if n < 10 then [Nat.digitChar n]
  else decChars (n / 10) ++ [Nat.digitChar (n % 10)]
termination_by n
decreasing_by exact Nat.div_lt_self (by omega) (by omega)

theorem decChars_lt {n : Nat} (h : n < 10) : decChars n = [Nat.digitChar n] := by
  rw [decChars, if_pos h]

theorem decChars_ge {n : Nat} (h : ¬n < 10) :
    decChars n = decChars (n / 10) ++ [Nat.digitChar (n % 10)] := by
  rw [decChars]
  exact if_neg h

theorem decChars_ne_nil (n : Nat) : decChars n ≠ [] := by
  by_cases h : n < 10
  · rw [decChars_lt h]
    simp
  · rw [decChars_ge h]
    simp

theorem toDigitsCore_eq_decChars (n : Nat) :
    ∀ (fuel : Nat) (ds : List Char), n < fuel →
      Nat.toDigitsCore 10 fuel n ds = decChars n ++ ds := by
  induction n using Nat.strong_induction_on with
  | _ n ih =>
    intro fuel ds hf
    match fuel, hf with
    | fuel + 1, hf =>
      rw [Nat.toDigitsCore]
      by_cases h0 : n / 10 = 0
      · have hn : n < 10 := by omega
        simp only [h0, if_pos rfl]
        rw [decChars_lt hn, Nat.mod_eq_of_lt hn]
        rfl
      · have h10 : ¬n < 10 := by
          intro h
          exact h0 (Nat.div_eq_of_lt h)
        simp only [h0, if_neg h0]
        rw [ih (n / 10) (Nat.div_lt_self (by omega) (by omega)) fuel
          (Nat.digitChar (n % 10) :: ds) (by omega)]
        rw [decChars_ge h10, List.append_assoc]
        rfl

theorem repr_eq_decChars (n : Nat) : Nat.repr n = (decChars n).asString := by
  rw [Nat.repr, Nat.toDigits,
    toDigitsCore_eq_decChars n (n + 1) [] (Nat.lt_succ_self n), List.append_nil]

theorem digitChar_injOn :
    ∀ a < 10, ∀ b < 10, Nat.digitChar a = Nat.digitChar b → a = b := by decide

theorem decChars_injective : ∀ m n : Nat, decChars m = decChars n → m = n := by
  intro m
  induction m using Nat.strong_induction_on with
  | _ m ih =>
    intro n h
    by_cases hm : m < 10 <;> by_cases hn : n < 10
    · rw [decChars_lt hm, decChars_lt hn] at h
      exact digitChar_injOn m hm n hn (by injection h)
    · exfalso
      rw [decChars_lt hm, decChars_ge hn] at h
      have hl := congrArg List.length h
      simp only [List.length_append, List.length_cons, List.length_nil] at hl
      exact decChars_ne_nil (n / 10) (List.length_eq_zero.mp (by omega))
    · exfalso
      rw [decChars_ge hm, decChars_lt hn] at h
      have hl := congrArg List.length h
      simp only [List.length_append, List.length_cons, List.length_nil] at hl
      exact decChars_ne_nil (m / 10) (List.length_eq_zero.mp (by omega))
    · rw [decChars_ge hm, decChars_ge hn] at h
      obtain ⟨h1, h2⟩ := List.append_inj' h (by simp)
      have hdiv : m / 10 = n / 10 :=
        ih (m / 10) (Nat.div_lt_self (by omega) (by omega)) (n / 10) h1
      have hmod : m % 10 = n % 10 :=
        digitChar_injOn _ (Nat.mod_lt _ (by omega)) _ (Nat.mod_lt _ (by omega))
          (by injection h2)
      omega

theorem natRepr_injective : Function.Injective Nat.repr := by
  intro m n h
  rw [repr_eq_decChars, repr_eq_decChars] at h
  exact decChars_injective m n (by
    have := congrArg String.data h
    simpa [List.asString] using this)

theorem docId_injective : Function.Injective docId := by
  intro m n h
  apply natRepr_injective
  have hd := congrArg String.data h
  simp only [docId, String.data_append] at hd
  have hdata := List.append_cancel_left hd
  exact String.ext hdata

/-! ### chunkList lemmas -/

theorem chunkListFuel_congr {β : Type} (B : Nat) :
    ∀ (f1 f2 : Nat) (l : List β), l.length ≤ f1 → l.length ≤ f2 →
      chunkListFuel B f1 l = chunkListFuel B f2 l := by
  intro f1
  induction f1 with
  | zero =>
    intro f2 l h1 _
    have hl : l = [] := List.length_eq_zero.mp (by omega)
    subst hl
    cases f2 <;> rfl
  | succ f1 ih =>
    intro f2 l h1 h2
    cases l with
    | nil => cases f2 <;> rfl
    | cons x xs =>
      cases f2 with
      | zero => simp at h2
      | succ g2 =>
        rw [chunkListFuel, chunkListFuel]
        congr 1
        have hxs1 : xs.length ≤ f1 := by simp at h1; omega
        have hxs2 : xs.length ≤ g2 := by simp at h2; omega
        exact ih g2 (xs.drop (B - 1)) (by simp only [List.length_drop]; omega)
          (by simp only [List.length_drop]; omega)

theorem chunkList_nil {β : Type} (B : Nat) : chunkList B ([] : List β) = [] := rfl

theorem chunkList_cons {β : Type} (B : Nat) (x : β) (xs : List β) :
    chunkList B (x :: xs) =
      (x :: xs.take (B - 1)) :: chunkList B (xs.drop (B - 1)) := by
  rw [chunkList, List.length_cons, chunkListFuel, chunkList]
  congr 1
  exact chunkListFuel_congr B xs.length (xs.drop (B - 1)).length (xs.drop (B - 1))
    (by simp only [List.length_drop]; omega) (le_refl _)

theorem chunkList_flatten {β : Type} (B : Nat) :
    ∀ l : List β, (chunkList B l).flatten = l
  | [] => by simp [chunkList_nil]
  | x :: xs => by
    rw [chunkList_cons, List.flatten_cons, chunkList_flatten B (xs.drop (B - 1))]
    simp [List.take_append_drop]
termination_by l => l.length
decreasing_by simp only [List.length_drop, List.length_cons]; omega

theorem chunkList_mem {β : Type} (B : Nat) :
    ∀ (l : List β) (b : List β), b ∈ chunkList B l → b.length ≤ B - 1 + 1 ∧ b ≠ []
  | [], b => by simp [chunkList_nil]
  | x :: xs, b => by
    rw [chunkList_cons]
    intro hb
    rcases List.mem_cons.mp hb with h | h
    · subst h
      refine ⟨?_, by simp⟩
      have := List.length_take_le (B - 1) xs
      simp only [List.length_cons]
      omega
    · exact chunkList_mem B (xs.drop (B - 1)) b h
termination_by l => l.length
decreasing_by simp only [List.length_drop, List.length_cons]; omega

theorem chunkList_ne_nil {β : Type} (B : Nat) (x : β) (xs : List β) :
    chunkList B (x :: xs) ≠ [] := by
  rw [chunkList_cons]
  simp

/-! ### mkEntries lemmas -/

theorem mkEntries_spec {α : Type} :
    ∀ (ids : List String) (vs : List α) (ds : List Document),
      ids.length = ds.length → vs.length = ds.length →
      (mkEntries ids vs ds).map Entry.id = ids ∧
      (mkEntries ids vs ds).map Entry.embedding = vs ∧
      (mkEntries ids vs ds).map Entry.document = ds.map Document.page_content ∧
      (mkEntries ids vs ds).map Entry.source = ds.map Document.source ∧
      (mkEntries ids vs ds).length = ds.length := by
  intro ids
  induction ids with
  | nil =>
    intro vs ds h1 h2
    have hds : ds = [] := List.length_eq_zero.mp (by simp at h1; omega)
    have hvs : vs = [] := List.length_eq_zero.mp (by subst hds; simpa using h2)
    subst hds; subst hvs
    simp [mkEntries]
  | cons i is ih =>
    intro vs ds h1 h2
    cases ds with
    | nil => simp at h1
    | cons d ds2 =>
      cases vs with
      | nil => simp at h2
      | cons v vs2 =>
        simp only [List.length_cons] at h1 h2
        obtain ⟨e1, e2, e3, e4, e5⟩ := ih vs2 ds2 (by omega) (by omega)
        simp [mkEntries, e1, e2, e3, e4, e5]

/-! ### ingestBatches lemmas -/

/-- The embedding provider behaves (returns, one vector per text). -/
def goodEmbed {α : Type} (embed : List String → Except Unit (List α)) : Prop :=
  ∀ ts, ∃ vs, embed ts = .ok vs ∧ vs.length = ts.length

theorem ingestBatches_cons_ok {α : Type} (embed : List String → Except Unit (List α))
    (b : List Document) (bs : List (List Document)) (coll : List (Entry α))
    (vs : List α) (hvs : embed (b.map (·.page_content)) = .ok vs) :
    ingestBatches embed (b :: bs) coll =
      ingestBatches embed bs
        (coll ++ mkEntries ((List.range b.length).map fun j => docId (coll.length + j)) vs b) := by
  rw [ingestBatches, hvs]

theorem ingestBatches_cons_err {α : Type} (embed : List String → Except Unit (List α))
    (b : List Document) (bs : List (List Document)) (coll : List (Entry α))
    (hvs : embed (b.map (·.page_content)) = .error ()) :
    ingestBatches embed (b :: bs) coll = .err .providerError (some coll) := by
  rw [ingestBatches, hvs]

theorem ingestBatches_ok {α : Type} (embed : List String → Except Unit (List α))
    (hembed : goodEmbed embed) :
    ∀ (bs : List (List Document)) (coll : List (Entry α)),
      ∃ new, ingestBatches embed bs coll = .ok (some (coll ++ new)) ∧
        new.length = bs.flatten.length ∧
        new.map Entry.document = bs.flatten.map Document.page_content ∧
        new.map Entry.source = bs.flatten.map Document.source ∧
        new.map Entry.id =
          (List.range bs.flatten.length).map fun j => docId (coll.length + j) := by
  intro bs
  induction bs with
  | nil =>
    intro coll
    exact ⟨[], by simp [ingestBatches]⟩
  | cons b bs2 ih =>
    intro coll
    obtain ⟨vs, hvs, hlen⟩ := hembed (b.map (·.page_content))
    obtain ⟨hid, hemb, hdoc, hsrc, hlenm⟩ := mkEntries_spec
      ((List.range b.length).map fun j => docId (coll.length + j)) vs b
      (by simp) (by simpa using hlen)
    obtain ⟨new2, hrun, hl2, hd2, hs2, hi2⟩ :=
      ih (coll ++ mkEntries ((List.range b.length).map fun j => docId (coll.length + j)) vs b)
    refine ⟨mkEntries ((List.range b.length).map fun j => docId (coll.length + j)) vs b
      ++ new2, ?_, ?_, ?_, ?_, ?_⟩
    · rw [ingestBatches_cons_ok embed b bs2 coll vs hvs, hrun, List.append_assoc]
    · simp [hlenm, hl2]
    · simp only [List.map_append, hdoc, hd2, List.flatten_cons]
    · simp only [List.map_append, hsrc, hs2, List.flatten_cons]
    · simp only [List.map_append, hid, hi2, List.flatten_cons, List.length_append,
        List.length_cons, List.length_map, List.length_flatten, hlenm]
      rw [List.range_add, List.map_append, List.map_map]
      simp [Function.comp, Nat.add_assoc]

theorem ingestBatches_err {α : Type} (embed : List String → Except Unit (List α)) :
    ∀ (pre : List (List Document)) (fb : List Document)
      (post : List (List Document)) (coll : List (Entry α)),
      (∀ b ∈ pre, ∃ vs, embed (b.map (·.page_content)) = .ok vs ∧ vs.length = b.length) →
      embed (fb.map (·.page_content)) = .error () →
      ∃ new, ingestBatches embed (pre ++ fb :: post) coll
          = .err .providerError (some (coll ++ new)) ∧
        new.length = pre.flatten.length ∧
        new.map Entry.document = pre.flatten.map Document.page_content := by
  intro pre
  induction pre with
  | nil =>
    intro fb post coll _ hfb
    refine ⟨[], ?_, by simp, by simp⟩
    rw [List.nil_append, ingestBatches_cons_err embed fb post coll hfb]
    simp
  | cons b pre2 ih =>
    intro fb post coll hpre hfb
    obtain ⟨vs, hvs, hlen⟩ := hpre b (by simp)
    obtain ⟨hid, hemb, hdoc, hsrc, hlenm⟩ := mkEntries_spec
      ((List.range b.length).map fun j => docId (coll.length + j)) vs b
      (by simp) (by simpa using hlen)
    obtain ⟨new2, hrun, hl2, hd2⟩ :=
      ih fb post
        (coll ++ mkEntries ((List.range b.length).map fun j => docId (coll.length + j)) vs b)
        (fun b2 hb2 => hpre b2 (by simp [hb2])) hfb
    refine ⟨mkEntries ((List.range b.length).map fun j => docId (coll.length + j)) vs b
      ++ new2, ?_, ?_, ?_⟩
    · rw [List.cons_append, ingestBatches_cons_ok embed b (pre2 ++ fb :: post) coll vs hvs,
        hrun, List.append_assoc]
    · simp [hlenm, hl2]
    · simp only [List.map_append, hdoc, hd2, List.flatten_cons]

/-! ### update_knowledge_base and runCall lemmas -/

theorem update_knowledge_base_ok {α : Type} (apiKey : Option String)
    (hk : keyMissing apiKey = false)
    (embed : List String → Except Unit (List α)) (hembed : goodEmbed embed)
    (recs : List Record) (hne : recs ≠ []) (store : ChromaStore α) :
    ∃ new, update_knowledge_base apiKey embed recs store
        = .ok (some (store.getD [] ++ new)) ∧
      new.length = recs.length ∧
      new.map Entry.document = recs.map (fun r => (recordToDocument r).page_content) ∧
      new.map Entry.source = recs.map (fun r => (recordToDocument r).source) ∧
      new.map Entry.id =
        (List.range recs.length).map fun i => docId ((store.getD []).length + i) := by
  cases recs with
  | nil => exact absurd rfl hne
  | cons r rs =>
    obtain ⟨vs, hvs, hlen⟩ := hembed (((r :: rs).map recordToDocument).map (·.page_content))
    obtain ⟨hid, hemb, hdoc, hsrc, hlenm⟩ := mkEntries_spec
      ((List.range ((r :: rs).map recordToDocument).length).map fun i =>
        docId ((store.getD []).length + i)) vs ((r :: rs).map recordToDocument)
      (by simp) (by simpa using hlen)
    refine ⟨mkEntries ((List.range ((r :: rs).map recordToDocument).length).map fun i =>
      docId ((store.getD []).length + i)) vs ((r :: rs).map recordToDocument),
      ?_, ?_, ?_, ?_, ?_⟩
    · rw [update_knowledge_base]
      simp only [hk, List.isEmpty_cons, Bool.false_eq_true, if_false, ite_false]
      rw [hvs]
      simp
    · rw [hlenm]
      simp
    · rw [hdoc]
      simp
    · rw [hsrc]
      simp
    · rw [hid]
      simp

theorem create_knowledge_base_ok {α : Type} (apiKey : Option String)
    (hk : keyMissing apiKey = false)
    (embed : List String → Except Unit (List α)) (hembed : goodEmbed embed)
    (docs : List Document) (hne : docs ≠ [])
    (dir : Option (List JsonFile)) (store : ChromaStore α) :
    ∃ new, create_knowledge_base apiKey embed (some docs) dir store
        = .ok (some (store.getD [] ++ new)) ∧
      new.length = docs.length ∧
      new.map Entry.document = docs.map Document.page_content ∧
      new.map Entry.source = docs.map Document.source ∧
      new.map Entry.id =
        (List.range docs.length).map fun j => docId ((store.getD []).length + j) := by
  obtain ⟨new, hrun, hl, hd, hs, hi⟩ :=
    ingestBatches_ok embed hembed (chunkList EMBEDDING_BATCH_SIZE docs) (store.getD [])
  have hempty : docs.isEmpty = false := by
    cases docs with
    | nil => exact absurd rfl hne
    | cons d ds => rfl
  have hflat := chunkList_flatten EMBEDDING_BATCH_SIZE docs
  refine ⟨new, ?_, ?_, ?_, ?_, ?_⟩
  · rw [create_knowledge_base]
    simp only [hk, Bool.false_eq_true, if_false, ite_false, hempty]
    exact hrun
  · rw [hl, hflat]
  · rw [hd, hflat]
  · rw [hs, hflat]
  · rw [hi, hflat]

theorem runCall_ok {α : Type} (apiKey : Option String) (hk : keyMissing apiKey = false)
    (embed : List String → Except Unit (List α)) (hembed : goodEmbed embed)
    (c : IngestCall) (s : ChromaStore α) :
    ∃ s2, runCall apiKey embed c s = .ok s2 ∧
      ∃ new, s2.getD [] = s.getD [] ++ new ∧
        new.length = c.size ∧
        new.map Entry.id =
          (List.range c.size).map fun j => docId ((s.getD []).length + j) := by
  cases c with
  | createCall docs =>
    cases docs with
    | nil =>
      refine ⟨s, by simp [runCall, create_knowledge_base, hk], [], by simp, ?_, ?_⟩ <;>
        simp [IngestCall.size]
    | cons d ds =>
      obtain ⟨new, hrun, hl, hd, hs2, hi⟩ :=
        create_knowledge_base_ok apiKey hk embed hembed (d :: ds) (by simp) none s
      refine ⟨some (s.getD [] ++ new), hrun, new, by simp, ?_, ?_⟩ <;>
        simp [IngestCall.size, hl, hi]
  | updateCall recs =>
    cases recs with
    | nil =>
      refine ⟨s, by simp [runCall, update_knowledge_base], [], by simp, ?_, ?_⟩ <;>
        simp [IngestCall.size]
    | cons r rs =>
      obtain ⟨new, hrun, hl, hd, hs2, hi⟩ :=
        update_knowledge_base_ok apiKey hk embed hembed (r :: rs) (by simp) s
      refine ⟨some (s.getD [] ++ new), hrun, new, by simp, ?_, ?_⟩ <;>
        simp [IngestCall.size, hl, hi]

theorem runCalls_ok {α : Type} (apiKey : Option String) (hk : keyMissing apiKey = false)
    (embed : List String → Except Unit (List α)) (hembed : goodEmbed embed) :
    ∀ (calls : List IngestCall) (s : ChromaStore α),
      (s.getD []).map Entry.id = (List.range (s.getD []).length).map docId →
      ∃ s2, runCalls apiKey embed calls s = .ok s2 ∧
        (s2.getD []).length = (s.getD []).length + (calls.map IngestCall.size).sum ∧
        (s2.getD []).map Entry.id = (List.range (s2.getD []).length).map docId := by
  intro calls
  induction calls with
  | nil =>
    intro s hcanon
    exact ⟨s, rfl, by simp, hcanon⟩
  | cons c cs ih =>
    intro s hcanon
    obtain ⟨s2, hrun, new, hgetD, hlen, hids⟩ := runCall_ok apiKey hk embed hembed c s
    have hcanon2 : (s2.getD []).map Entry.id = (List.range (s2.getD []).length).map docId := by
      rw [hgetD, List.map_append, hcanon, hids, List.length_append, hlen,
        List.range_add, List.map_append, List.map_map]
      rfl
    obtain ⟨s3, hrun3, hlen3, hids3⟩ := ih s2 hcanon2
    refine ⟨s3, ?_, ?_, hids3⟩
    · rw [runCalls, hrun]
      exact hrun3
    · rw [hlen3, hgetD]
      simp [hlen]
      omega

/-! ### Shared witness material -/

/-- A concrete embedding provider for witnesses: every text embeds to `0`. -/
def embedZero : List String → Except Unit (List Nat) :=
  fun ts => .ok (ts.map fun _ => 0)

theorem embedZero_good : goodEmbed embedZero :=
  fun ts => ⟨ts.map fun _ => 0, rfl, by simp⟩

/-! ### Claim theorems -/

/-- C1: under single-writer sequential ingestion starting from a Collection
never yet created, any sequence of ingest calls (`create_knowledge_base`
or `update_knowledge_base`), run with the credential present and an
embedding provider returning one vector per text, succeeds; the final
Collection holds `sum m_i` entries whose ids are exactly
`doc_0 … doc_(sum-1)` in order and pairwise distinct; and for every call
of the sequence, the entries it appends carry the contiguous id range
starting at the Collection count read immediately before its append
(so successive ranges are contiguous and non-overlapping). -/
theorem C1_sequential_ingest_ids {α : Type} (apiKey : Option String)
    (hk : keyMissing apiKey = false)
    (embed : List String → Except Unit (List α)) (hembed : goodEmbed embed)
    (calls : List IngestCall) :
    ∃ s2, runCalls apiKey embed calls (none : ChromaStore α) = .ok s2 ∧
      (s2.getD []).length = (calls.map IngestCall.size).sum ∧
      (s2.getD []).map Entry.id =
        (List.range ((calls.map IngestCall.size).sum)).map docId ∧
      ((s2.getD []).map Entry.id).Nodup ∧
      ∀ (pre : List IngestCall) (c : IngestCall) (post : List IngestCall),
        calls = pre ++ c :: post →
        ∃ sk s2k new, runCalls apiKey embed pre (none : ChromaStore α) = .ok sk ∧
          runCall apiKey embed c sk = .ok s2k ∧
          (sk.getD []).length = (pre.map IngestCall.size).sum ∧
          s2k.getD [] = sk.getD [] ++ new ∧
          new.length = c.size ∧
          new.map Entry.id =
            (List.range c.size).map fun j => docId ((sk.getD []).length + j) := by
  obtain ⟨s2, hrun, hlen, hids⟩ :=
    runCalls_ok apiKey hk embed hembed calls none (by simp)
  have hlen2 : (s2.getD []).length = (calls.map IngestCall.size).sum := by
    simpa using hlen
  refine ⟨s2, hrun, hlen2, ?_, ?_, ?_⟩
  · rw [hids, hlen2]
  · rw [hids]
    exact (List.nodup_range _).map docId_injective
  · intro pre c post hsplit
    obtain ⟨sk, hrunk, hlenk, hidsk⟩ :=
      runCalls_ok apiKey hk embed hembed pre none (by simp)
    obtain ⟨s2k, hrunc, new, hgetD, hlennew, hidsnew⟩ :=
      runCall_ok apiKey hk embed hembed c sk
    exact ⟨sk, s2k, new, hrunk, hrunc, by simpa using hlenk, hgetD, hlennew, hidsnew⟩

theorem C1_sequential_ingest_ids_witness :
    ∃ s2, runCalls (some "sk-test") embedZero
        [IngestCall.createCall [⟨"text one", "a.json"⟩, ⟨"text two", "b.json"⟩],
         IngestCall.updateCall [[("documentId", PyJson.str "A")]]]
        (none : ChromaStore Nat) = .ok s2 ∧
      (s2.getD []).length =
        (([IngestCall.createCall [⟨"text one", "a.json"⟩, ⟨"text two", "b.json"⟩],
           IngestCall.updateCall [[("documentId", PyJson.str "A")]]].map
            IngestCall.size).sum) ∧
      (s2.getD []).map Entry.id =
        (List.range (([IngestCall.createCall
            [⟨"text one", "a.json"⟩, ⟨"text two", "b.json"⟩],
           IngestCall.updateCall [[("documentId", PyJson.str "A")]]].map
            IngestCall.size).sum)).map docId ∧
      ((s2.getD []).map Entry.id).Nodup ∧
      ∀ (pre : List IngestCall) (c : IngestCall) (post : List IngestCall),
        [IngestCall.createCall [⟨"text one", "a.json"⟩, ⟨"text two", "b.json"⟩],
         IngestCall.updateCall [[("documentId", PyJson.str "A")]]]
          = pre ++ c :: post →
        ∃ sk s2k new, runCalls (some "sk-test") embedZero pre
            (none : ChromaStore Nat) = .ok sk ∧
          runCall (some "sk-test") embedZero c sk = .ok s2k ∧
          (sk.getD []).length = (pre.map IngestCall.size).sum ∧
          s2k.getD [] = sk.getD [] ++ new ∧
          new.length = c.size ∧
          new.map Entry.id =
            (List.range c.size).map fun j => docId ((sk.getD []).length + j) :=
  C1_sequential_ingest_ids (some "sk-test") rfl embedZero embedZero_good
    [IngestCall.createCall [⟨"text one", "a.json"⟩, ⟨"text two", "b.json"⟩],
     IngestCall.updateCall [[("documentId", PyJson.str "A")]]]

/-- C2 counterexample: the records `\x7b"a": 1, "b": 2\x7d` and
`\x7b"b": 2, "a": 1\x7d` are logically identical (equal field-to-value
mappings) yet serialize to different text in both ingest paths —
`json.dumps(..., indent=2)` keeps dict insertion order and is not passed
`sort_keys`, so serialization is not canonical across field orderings. -/
theorem C2_canonical_serialization_counterexample :
    (∀ k : String, pyGet [("a", PyJson.int 1), ("b", PyJson.int 2)] k
      = pyGet [("b", PyJson.int 2), ("a", PyJson.int 1)] k) ∧
    pyDumps 0 (.obj [("a", PyJson.int 1), ("b", PyJson.int 2)])
      ≠ pyDumps 0 (.obj [("b", PyJson.int 2), ("a", PyJson.int 1)]) ∧
    (recordToDocument [("a", PyJson.int 1), ("b", PyJson.int 2)]).page_content
      ≠ (recordToDocument [("b", PyJson.int 2), ("a", PyJson.int 1)]).page_content := by
  refine ⟨?_, by decide, by decide⟩
  intro k
  by_cases ha : ("a" : String) = k
  · have hb : ¬("b" : String) = k := by
      rw [← ha]
      decide
    simp [pyGet, ha, hb]
  · by_cases hb : ("b" : String) = k
    · simp [pyGet, ha, hb]
    · simp [pyGet, ha, hb]

/-- C2 amended: serialization is deterministic — serializing the same
Structured Document Record twice yields byte-identical text, and the
directory-loader path and the incremental-ingest path run the very same
serialization (`json.dumps(data, indent=2)`) — but records with equal
field-to-value mappings listed in different orders may serialize
differently (see the counterexample): canonical text depends on field
insertion order. -/
theorem C2_serialization_deterministic (d : PyJson) (name : String) (r : Record) :
    pyDumps 0 d = pyDumps 0 d ∧
    load_documents_from_json_dir (some [⟨name, some d⟩]) = [⟨pyDumps 0 d, name⟩] ∧
    (recordToDocument r).page_content = pyDumps 0 (.obj r) :=
  ⟨rfl, by simp [load_documents_from_json_dir], rfl⟩

/-- C3: with the credential present, when the batch split of a
full-rebuild ingest is `pre ++ fb :: post` with `pre` nonempty (the
provider succeeds on batches `1..i-1` and fails on batch `i > 1`),
`create_knowledge_base` raises `ProviderError`, nothing from the failing
batch or any later batch is appended, and the Collection holds its
pre-call entries plus exactly the entries of batches `1..i-1`. -/
theorem C3_partial_failure_durability {α : Type} (apiKey : Option String)
    (hk : keyMissing apiKey = false)
    (embed : List String → Except Unit (List α)) (docs : List Document)
    (pre : List (List Document)) (fb : List Document) (post : List (List Document))
    (hchunks : chunkList EMBEDDING_BATCH_SIZE docs = pre ++ fb :: post)
    (hpre : ∀ b ∈ pre, ∃ vs, embed (b.map (·.page_content)) = .ok vs ∧ vs.length = b.length)
    (hfb : embed (fb.map (·.page_content)) = .error ())
    (_hpre_ne : pre ≠ [])
    (dir : Option (List JsonFile)) (store : ChromaStore α) :
    ∃ new, create_knowledge_base apiKey embed (some docs) dir store
        = .err .providerError (some (store.getD [] ++ new)) ∧
      new.length = pre.flatten.length ∧
      new.map Entry.document = pre.flatten.map Document.page_content := by
  have hdocs_ne : docs ≠ [] := by
    intro h
    subst h
    rw [chunkList_nil] at hchunks
    exact absurd hchunks.symm (by simp)
  have hempty : docs.isEmpty = false := by
    cases docs with
    | nil => exact absurd rfl hdocs_ne
    | cons d ds => rfl
  obtain ⟨new, hrun, hl, hd⟩ := ingestBatches_err embed pre fb post (store.getD []) hpre hfb
  refine ⟨new, ?_, hl, hd⟩
  rw [create_knowledge_base]
  simp only [hk, Bool.false_eq_true, if_false, ite_false, hempty]
  rw [hchunks]
  exact hrun

/-- A provider for the C3 witness: fails exactly on a singleton batch. -/
def embedFail1 : List String → Except Unit (List Nat) :=
  fun ts => if ts.length = 1 then .error () else .ok (ts.map fun _ => 0)

/-- The C3 witness input: 101 documents, hence a full batch of 100
followed by a singleton batch that the provider fails on. -/
def docsW : List Document := List.replicate 101 ⟨"t", "s"⟩

theorem C3_partial_failure_durability_witness :
    ∃ new, create_knowledge_base (some "sk-test") embedFail1 (some docsW) none
        (none : ChromaStore Nat)
        = .err .providerError (some ((none : ChromaStore Nat).getD [] ++ new)) ∧
      new.length = ([List.replicate 100 (⟨"t", "s"⟩ : Document)].flatten).length ∧
      new.map Entry.document
        = ([List.replicate 100 (⟨"t", "s"⟩ : Document)].flatten).map Document.page_content :=
  C3_partial_failure_durability (some "sk-test") rfl embedFail1 docsW
    [List.replicate 100 ⟨"t", "s"⟩] [⟨"t", "s"⟩] [] (by decide)
    (by
      intro b hb
      simp only [List.mem_singleton] at hb
      subst hb
      exact ⟨((List.replicate 100 (⟨"t", "s"⟩ : Document)).map
        (fun x => x.page_content)).map (fun _ => 0), rfl, by decide⟩)
    rfl (by simp) none none

theorem ingestBatches_ok_fun {α : Type} (f : String → α)
    (embed : List String → Except Unit (List α))
    (hembed : ∀ ts, embed ts = .ok (ts.map f)) :
    ∀ (bs : List (List Document)) (coll : List (Entry α)),
      ∃ new, ingestBatches embed bs coll = .ok (some (coll ++ new)) ∧
        new.map Entry.document = bs.flatten.map Document.page_content ∧
        new.map Entry.embedding = (bs.flatten.map Document.page_content).map f ∧
        new.map Entry.id =
          (List.range bs.flatten.length).map fun j => docId (coll.length + j) := by
  intro bs
  induction bs with
  | nil =>
    intro coll
    exact ⟨[], by simp [ingestBatches]⟩
  | cons b bs2 ih =>
    intro coll
    have hvs := hembed (b.map (·.page_content))
    obtain ⟨hid, hemb, hdoc, hsrc, hlenm⟩ := mkEntries_spec
      ((List.range b.length).map fun j => docId (coll.length + j))
      ((b.map (·.page_content)).map f) b (by simp) (by simp)
    obtain ⟨new2, hrun, hd2, he2, hi2⟩ :=
      ih (coll ++ mkEntries ((List.range b.length).map fun j => docId (coll.length + j))
        ((b.map (·.page_content)).map f) b)
    refine ⟨mkEntries ((List.range b.length).map fun j => docId (coll.length + j))
      ((b.map (·.page_content)).map f) b ++ new2, ?_, ?_, ?_, ?_⟩
    · rw [ingestBatches_cons_ok embed b bs2 coll ((b.map (·.page_content)).map f) hvs,
        hrun, List.append_assoc]
    · simp only [List.map_append, hdoc, hd2, List.flatten_cons]
    · simp only [List.map_append, hemb, he2, List.flatten_cons]
    · simp only [List.map_append, hid, hi2, List.flatten_cons, List.length_append,
        List.length_cons, List.length_map, List.length_flatten, hlenm]
      rw [List.range_add, List.map_append, List.map_map]
      simp [Function.comp, Nat.add_assoc]

/-- C4: with the credential present, for every query string and every
result count, `query_knowledge_base` against a Collection that was never
created by any ingest raises `IndexError` (`get_collection` fails); in
particular it never returns — so never returns an empty list. -/
theorem C4_query_before_create {α : Type} (apiKey : Option String)
    (hk : keyMissing apiKey = false)
    (search : List (Entry α) → String → Nat → List String)
    (query_text : String) (n_results : Nat) :
    query_knowledge_base apiKey search query_text (none : ChromaStore α) n_results
      = .error .indexError := by
  rw [query_knowledge_base]
  simp [hk]

theorem C4_query_before_create_witness :
    query_knowledge_base (some "sk-test") (fun _ _ _ => ([] : List String)) "total usage"
      (none : ChromaStore Nat) 15 = .error .indexError :=
  C4_query_before_create (some "sk-test") rfl (fun _ _ _ => []) "total usage" 15

/-- C5 counterexample: with the credential absent, `update_knowledge_base`
on the empty record list returns silently (its empty-input check precedes
the credential check) — it does not raise `ConfigError`, contradicting the
claim for the empty input sequence on the incremental path. -/
theorem C5_config_error_counterexample :
    update_knowledge_base none embedZero [] (none : ChromaStore Nat) = .ok none ∧
    update_knowledge_base none embedZero [] (none : ChromaStore Nat)
      ≠ .err .configError none :=
  ⟨rfl, by decide⟩

/-- C5 amended: with the embedding credential absent (unset or empty),
`create_knowledge_base` raises `ConfigError` before any side effect for
every input — including the empty one — and `update_knowledge_base` does
so for every non-empty record list; the empty record list instead returns
silently with no side effect (its empty-input check runs first). -/
theorem C5_config_error_amended {α : Type} (apiKey : Option String)
    (hk : keyMissing apiKey = true)
    (embed embed2 : List String → Except Unit (List α))
    (documents : Option (List Document)) (dir : Option (List JsonFile))
    (recs : List Record) (hrecs : recs ≠ [])
    (store store2 : ChromaStore α) :
    create_knowledge_base apiKey embed documents dir store = .err .configError store ∧
    update_knowledge_base apiKey embed2 recs store2 = .err .configError store2 := by
  constructor
  · rw [create_knowledge_base.eq_def]
    simp [hk]
  · cases recs with
    | nil => exact absurd rfl hrecs
    | cons r rs =>
      rw [update_knowledge_base]
      simp [hk]

theorem C5_config_error_amended_witness :
    create_knowledge_base none embedZero (some []) none (none : ChromaStore Nat)
        = .err .configError none ∧
    update_knowledge_base none embedZero [[("documentId", PyJson.str "A")]]
        (none : ChromaStore Nat) = .err .configError none :=
  C5_config_error_amended none rfl embedZero embedZero (some []) none
    [[("documentId", PyJson.str "A")]] (by simp) none none

/-- C6: `update_knowledge_base` on the empty record list is a no-op
(no error, store untouched — whatever the credential state), and, with
the credential present, `create_knowledge_base` loading a record
directory none of whose files parse (in particular an empty directory)
is equally a no-op. -/
theorem C6_empty_input_noop {α : Type} (apiKey apiKey2 : Option String)
    (hk : keyMissing apiKey2 = false)
    (embed embed2 : List String → Except Unit (List α))
    (files : List JsonFile) (hfiles : ∀ f ∈ files, f.data = none)
    (store store2 : ChromaStore α) :
    update_knowledge_base apiKey embed [] store = .ok store ∧
    create_knowledge_base apiKey2 embed2 none (some files) store2 = .ok store2 := by
  have hload : load_documents_from_json_dir (some files) = [] := by
    rw [load_documents_from_json_dir]
    rw [List.filterMap_eq_nil_iff]
    intro f hf
    rw [hfiles f hf]
    rfl
  constructor
  · rfl
  · rw [create_knowledge_base]
    simp [hk, hload]

theorem C6_empty_input_noop_witness :
    update_knowledge_base none embedZero [] (none : ChromaStore Nat) = .ok none ∧
    create_knowledge_base (some "sk-test") embedZero none
      (some [⟨"bad.json", none⟩]) (none : ChromaStore Nat) = .ok none :=
  C6_empty_input_noop none (some "sk-test") rfl embedZero embedZero
    [⟨"bad.json", none⟩]
    (by
      intro f hf
      simp only [List.mem_singleton] at hf
      subst hf
      rfl)
    none none

/-- C7: within one `create_knowledge_base` call, run with the credential
present and a provider that embeds each text by the pure function `f`:
the documents are partitioned into consecutive batches of at most
`EMBEDDING_BATCH_SIZE` processed in input order (their concatenation is
the input list), and the call appends entries whose texts are exactly the
input texts in input order, whose embeddings are positionally `f` of
those texts, and whose ids are increasing and contiguous from the
pre-call count — hence increasing and contiguous within each batch. -/
theorem C7_batching_order {α : Type} (apiKey : Option String)
    (hk : keyMissing apiKey = false)
    (f : String → α) (embed : List String → Except Unit (List α))
    (hembed : ∀ ts, embed ts = .ok (ts.map f))
    (docs : List Document) (hne : docs ≠ [])
    (dir : Option (List JsonFile)) (store : ChromaStore α) :
    (chunkList EMBEDDING_BATCH_SIZE docs).flatten = docs ∧
    (∀ b ∈ chunkList EMBEDDING_BATCH_SIZE docs,
      b.length ≤ EMBEDDING_BATCH_SIZE ∧ b ≠ []) ∧
    ∃ new, create_knowledge_base apiKey embed (some docs) dir store
        = .ok (some (store.getD [] ++ new)) ∧
      new.map Entry.document = docs.map Document.page_content ∧
      new.map Entry.embedding = (docs.map Document.page_content).map f ∧
      new.map Entry.id =
        (List.range docs.length).map fun j => docId ((store.getD []).length + j) := by
  have hflat := chunkList_flatten EMBEDDING_BATCH_SIZE docs
  have hempty : docs.isEmpty = false := by
    cases docs with
    | nil => exact absurd rfl hne
    | cons d ds => rfl
  refine ⟨hflat, ?_, ?_⟩
  · intro b hb
    have h := chunkList_mem EMBEDDING_BATCH_SIZE docs b hb
    refine ⟨?_, h.2⟩
    have := h.1
    simp only [EMBEDDING_BATCH_SIZE] at this ⊢
    omega
  · obtain ⟨new, hrun, hd, he, hi⟩ :=
      ingestBatches_ok_fun f embed hembed (chunkList EMBEDDING_BATCH_SIZE docs)
        (store.getD [])
    refine ⟨new, ?_, ?_, ?_, ?_⟩
    · rw [create_knowledge_base]
      simp only [hk, Bool.false_eq_true, if_false, ite_false, hempty]
      exact hrun
    · rw [hd, hflat]
    · rw [he, hflat]
    · rw [hi, hflat]

theorem C7_batching_order_witness :
    (chunkList EMBEDDING_BATCH_SIZE
      [(⟨"t1", "a.json"⟩ : Document), ⟨"t2", "b.json"⟩]).flatten
      = [(⟨"t1", "a.json"⟩ : Document), ⟨"t2", "b.json"⟩] ∧
    (∀ b ∈ chunkList EMBEDDING_BATCH_SIZE
        [(⟨"t1", "a.json"⟩ : Document), ⟨"t2", "b.json"⟩],
      b.length ≤ EMBEDDING_BATCH_SIZE ∧ b ≠ []) ∧
    ∃ new, create_knowledge_base (some "sk-test") embedZero
        (some [(⟨"t1", "a.json"⟩ : Document), ⟨"t2", "b.json"⟩]) none
        (none : ChromaStore Nat)
        = .ok (some ((none : ChromaStore Nat).getD [] ++ new)) ∧
      new.map Entry.document
        = [(⟨"t1", "a.json"⟩ : Document), ⟨"t2", "b.json"⟩].map Document.page_content ∧
      new.map Entry.embedding
        = ([(⟨"t1", "a.json"⟩ : Document), ⟨"t2", "b.json"⟩].map
            Document.page_content).map (fun _ => 0) ∧
      new.map Entry.id =
        (List.range [(⟨"t1", "a.json"⟩ : Document), ⟨"t2", "b.json"⟩].length).map
          fun j => docId (((none : ChromaStore Nat).getD []).length + j) :=
  C7_batching_order (some "sk-test") rfl (fun _ => 0) embedZero (fun ts => rfl)
    [⟨"t1", "a.json"⟩, ⟨"t2", "b.json"⟩] (by simp) none none

/-- C8: `generate_answer` on an empty retrieved-documents list returns the
fixed no-relevant-documents message and issues no model call; on a
non-empty list it issues exactly one chat-completion call at sampling
temperature 0 on model `gpt-4o`, whose user prompt joins the contexts
with the explicit separator `\n\n---\n\n`, and returns the model's raw
text response. -/
theorem C8_generate_answer (callModel : ChatRequest → String)
    (query_text : String) (retrieved_docs : List String) :
    generate_answer callModel query_text []
      = ("I couldn\x27t find any relevant documents to answer that.", []) ∧
    (retrieved_docs ≠ [] →
      ∃ req, generate_answer callModel query_text retrieved_docs
          = (callModel req, [req]) ∧
        req.temperature = 0 ∧
        req.model = LLM_MODEL ∧
        req.user = "CONTEXT DOCUMENTS:\n" ++
          String.intercalate "\n\n---\n\n" retrieved_docs ++
          "\n\nUSER\x27S QUESTION:\n" ++ query_text ++ "\n\nANSWER:") := by
  constructor
  · rfl
  · intro hne
    cases retrieved_docs with
    | nil => exact absurd rfl hne
    | cons d ds => exact ⟨_, rfl, rfl, rfl, rfl⟩

theorem C8_generate_answer_witness :
    generate_answer (fun _ => "model says") "what is the total usage?" []
      = ("I couldn\x27t find any relevant documents to answer that.", []) ∧
    (∃ req, generate_answer (fun _ => "model says") "what is the total usage?"
        ["ctx one", "ctx two"]
        = ((fun _ => "model says") req, [req]) ∧
      req.temperature = 0 ∧
      req.model = LLM_MODEL ∧
      req.user = "CONTEXT DOCUMENTS:\n" ++
        String.intercalate "\n\n---\n\n" ["ctx one", "ctx two"] ++
        "\n\nUSER\x27S QUESTION:\n" ++ "what is the total usage?" ++ "\n\nANSWER:") :=
  ⟨(C8_generate_answer (fun _ => "model says") "what is the total usage?"
      ["ctx one", "ctx two"]).1,
   (C8_generate_answer (fun _ => "model says") "what is the total usage?"
      ["ctx one", "ctx two"]).2 (by simp)⟩

/-- C9: with the credential present, when the record directory does not
exist or yields no documents, `create_knowledge_base` returns before the
Collection is ever opened or created — the store is left exactly as it
was — so on a fresh deployment a subsequent `query_knowledge_base` still
raises the nonexistent-collection `IndexError` rather than returning an
empty result. -/
theorem C9_no_docs_no_collection {α : Type} (apiKey : Option String)
    (hk : keyMissing apiKey = false)
    (embed : List String → Except Unit (List α))
    (dir : Option (List JsonFile))
    (hdir : load_documents_from_json_dir dir = [])
    (search : List (Entry α) → String → Nat → List String)
    (query_text : String) (n_results : Nat) :
    create_knowledge_base apiKey embed none dir (none : ChromaStore α) = .ok none ∧
    query_knowledge_base apiKey search query_text (none : ChromaStore α) n_results
      = .error .indexError := by
  constructor
  · rw [create_knowledge_base]
    simp [hk, hdir]
  · rw [query_knowledge_base]
    simp [hk]

theorem C9_no_docs_no_collection_witness :
    create_knowledge_base (some "sk-test") embedZero none none
      (none : ChromaStore Nat) = .ok none ∧
    query_knowledge_base (some "sk-test") (fun _ _ _ => ([] : List String))
      "total usage" (none : ChromaStore Nat) 15 = .error .indexError :=
  C9_no_docs_no_collection (some "sk-test") rfl embedZero none rfl
    (fun _ _ _ => []) "total usage" 15

/-- C10: `update_knowledge_base` does not require the `documentId` field:
with the credential present and a working provider, a non-empty record
list in which every record lacks `documentId` is still fully embedded and
appended — one entry per record, none skipped, no error — and every
appended entry carries the source label `"None.json"` (the f-string
renders the `None` of the failed dict lookup). -/
theorem C10_missing_documentId {α : Type} (apiKey : Option String)
    (hk : keyMissing apiKey = false)
    (embed : List String → Except Unit (List α)) (hembed : goodEmbed embed)
    (recs : List Record) (hne : recs ≠ [])
    (hnoid : ∀ r ∈ recs, pyGet r "documentId" = none)
    (store : ChromaStore α) :
    ∃ new, update_knowledge_base apiKey embed recs store
        = .ok (some (store.getD [] ++ new)) ∧
      new.length = recs.length ∧
      ∀ e ∈ new, e.source = "None.json" := by
  obtain ⟨new, hrun, hl, hd, hs, hi⟩ :=
    update_knowledge_base_ok apiKey hk embed hembed recs hne store
  refine ⟨new, hrun, hl, ?_⟩
  intro e he
  have hmem : e.source ∈ new.map Entry.source := List.mem_map_of_mem _ he
  rw [hs] at hmem
  obtain ⟨r, hr, hsrc⟩ := List.mem_map.mp hmem
  rw [← hsrc]
  show (recordToDocument r).source = "None.json"
  rw [recordToDocument]
  simp only [hnoid r hr]
  rfl

theorem C10_missing_documentId_witness :
    ∃ new, update_knowledge_base (some "sk-test") embedZero
        [[("totalUsage", PyJson.int 100)]] (none : ChromaStore Nat)
        = .ok (some ((none : ChromaStore Nat).getD [] ++ new)) ∧
      new.length = [[("totalUsage", PyJson.int 100)]].length ∧
      ∀ e ∈ new, e.source = "None.json" :=
  C10_missing_documentId (some "sk-test") rfl embedZero embedZero_good
    [[("totalUsage", PyJson.int 100)]] (by simp)
    (by
      intro r hr
      simp only [List.mem_singleton] at hr
      subst hr
      rfl)
    none
